import Mathlib

/-!
# Verification of the Slashblade animation exporter

Shallow embedding of `yamato animation converter.py` (the conversion core:
keyframe extraction, per-bone relative Euler angles, hold-durations and
text serialization), together with theorems settling the specification
claims about it.

Matrix math (`mathutils.Matrix`, `to_euler`) and the degree/radian
conversions of the host are external capabilities; they are modelled as an
abstract matrix type `M` with an `EulerCap` capability record, with angle
scalars taken in `ℚ`.
-/

namespace Slashblade

/-- One keyframe point of an f-curve; `co_x` is `kp.co.x`, the frame
coordinate (a real number in Blender, modelled as a rational). -/
structure KeyframePoint where
  co_x : ℚ
deriving DecidableEq, Repr

/-- One f-curve of an action: `fcu.keyframe_points`. -/
structure FCurve where
  keyframe_points : List KeyframePoint
deriving DecidableEq, Repr

/-- An animation clip (`bpy.types.Action`): a name and its f-curves. -/
structure Action where
  name : String
  fcurves : List FCurve
deriving DecidableEq, Repr

/-- Floor of a rational as an integer (`Int.fdiv` is floor division and
the denominator is positive, so this is the usual floor). -/
def rat_floor (q : ℚ) : ℤ := Int.fdiv q.num q.den

/-- Python's `round` on a rational: round half to even (banker's rounding),
as used by `int(round(kp.co.x))`. -/
def py_round (q : ℚ) : ℤ :=
  let fl : ℤ := rat_floor q
  let fr : ℚ := q - fl
  if fr < 1/2 then fl
  else if 1/2 < fr then fl + 1
  else if fl % 2 = 0 then fl else fl + 1

/-- Insert an integer into a strictly-sorted list, keeping it
strictly sorted and duplicate-free. -/
def insert_unique (x : ℤ) : List ℤ → List ℤ
  | [] => [x]
  | y :: ys => if x < y then x :: y :: ys else if x = y then y :: ys else y :: insert_unique x ys

/-- `sorted(set(l))` of Python: ascending, duplicate-free sequence of the
elements of `l`. -/
def sorted_unique (l : List ℤ) : List ℤ := l.foldr insert_unique []

/-- The multiset of `int(round(kp.co.x))` over every keyframe point of
every f-curve of the action (the values added to the `frames` set). -/
def all_rounds (action : Action) : List ℤ :=
  action.fcurves.flatMap (fun fcu => fcu.keyframe_points.map (fun kp => py_round kp.co_x))

/-- `gather_action_keyframes`: sorted list of unique keyframe frame
numbers (int) of the action. -/
def gather_action_keyframes (action : Action) : List ℤ :=
  sorted_unique (all_rounds action)

/-- Total number of keyframe points across all channels of the action. -/
def total_points (action : Action) : ℕ :=
  (action.fcurves.map (fun fcu => fcu.keyframe_points.length)).sum

/-- A pose bone (`arm_obj.pose.bones[...]`): its name, its current matrix
(`pb.matrix`), and — when the bone has a parent — the parent pose bone's
current matrix (`pb.parent.matrix`). `M` is the host's 4x4-matrix type. -/
structure PoseBone (M : Type) where
  name : String
  parent : Option M
  matrix : M
deriving DecidableEq, Repr

/-- The host's matrix-math capability (`mathutils` and `math`): matrix
multiplication `@`, `Matrix.inverted`, `Matrix.to_euler('XYZ')` (returning
the three Euler angles in radians, as rationals), `math.degrees`, and the
constant `math.radians(90.0)`. -/
structure EulerCap (M : Type) where
  matmul : M → M → M
  inverted : M → M
  to_euler_XYZ : M → ℚ × ℚ × ℚ
  degrees : ℚ → ℚ
  radians_90 : ℚ

/-- `pose_bone_relative_euler_degrees`: Euler XYZ in degrees, relative to
parent; torso = world angles (with -90 deg X offset). -/
def pose_bone_relative_euler_degrees {M : Type} (cap : EulerCap M) (arm_matrix_world : M)
    (pb : PoseBone M) : ℚ × ℚ × ℚ :=
  match pb.parent with
  | some parent_matrix =>
    let rel_mat := cap.matmul (cap.inverted parent_matrix) pb.matrix
    let e := cap.to_euler_XYZ rel_mat
    (cap.degrees e.1, cap.degrees e.2.1, cap.degrees e.2.2)
  | none =>
    let world_mat := cap.matmul arm_matrix_world pb.matrix
    let e := cap.to_euler_XYZ world_mat
    (cap.degrees (e.1 - cap.radians_90), cap.degrees e.2.1, cap.degrees e.2.2)

/-- Recursion core of `natChars`; the first argument is fuel (any amount
at least the digit count gives the digits of `n`, most significant
first). -/
def natCharsCore : ℕ → ℕ → List Char
  | 0, _ => []
  | fuel + 1, n =>
    if n < 10 then [Nat.digitChar n]
    else natCharsCore fuel (n / 10) ++ [Nat.digitChar (n % 10)]

/-- Decimal digits of a natural number, most significant first
(the digits of Python's `str`/`format` rendering). -/
def natChars (n : ℕ) : List Char := natCharsCore (n + 1) n

/-- Python's `str` of an `int`. -/
def int_str (z : ℤ) : String :=
  if z < 0 then "-" ++ String.mk (natChars z.natAbs) else String.mk (natChars z.toNat)

/-- The 6 fractional-digit characters of `n % 10^6`, most significant
first (the part after the decimal point in `"%.6f"`). -/
def pad6_chars (n : ℕ) : List Char :=
  [Nat.digitChar (n / 100000 % 10), Nat.digitChar (n / 10000 % 10), Nat.digitChar (n / 1000 % 10),
   Nat.digitChar (n / 100 % 10), Nat.digitChar (n / 10 % 10), Nat.digitChar (n % 10)]

/-- Python's `"{:.6f}".format(q)`: sign, integer part, `.`, and exactly six
fractional digits, rounding the value half-to-even at the sixth decimal. -/
def format_fixed6 (q : ℚ) : String :=
  let n : ℕ := (py_round (|q| * 1000000)).toNat
  (if q < 0 then "-" else "") ++ String.mk (natChars (n / 1000000)) ++ "." ++
    String.mk (pad6_chars (n % 1000000))

/-- `vec_to_angle_str`: renders a degree triple as
`Angle(x,y,z)` with each component formatted by `"{:.6f}"`. -/
def vec_to_angle_str (deg_tuple : ℚ × ℚ × ℚ) : String :=
  "Angle(" ++ format_fixed6 deg_tuple.1 ++ "," ++ format_fixed6 deg_tuple.2.1 ++ "," ++
    format_fixed6 deg_tuple.2.2 ++ ")"

/-- `BONE_ORDER`: the fixed ordered list of 9 bone names. -/
def BONE_ORDER : List String :=
  ["Torso", "UpperArm_Left", "ForeArm_Left", "Hand_Left", "Hand_Flipped_Left",
   "UpperArm_Right", "ForeArm_Right", "Hand_Right", "Sword"]

/-- Python `str.lower` (ASCII, which covers the clip names in scope). -/
def py_lower (s : String) : String := s.map Char.toLower

/-- Python `str.upper` (ASCII, which covers the clip names in scope). -/
def py_upper (s : String) : String := s.map Char.toUpper

/-- Python `str.replace(" ", "_")`. -/
def py_space_to_underscore (s : String) : String :=
  s.map (fun c => if c = ' ' then '_' else c)

/-- The armature object: its `matrix_world` and its pose bones as resolved
after the scene has been seeked to a given frame (`pose.bones` read after
`scene.frame_set(f)` plus a view-layer update). -/
structure ArmObj (M : Type) where
  matrix_world : M
  pose_bones : ℤ → List (PoseBone M)

/-- The host scene's mutable state: its current-frame cursor. -/
structure Scene where
  frame_current : ℤ
deriving DecidableEq, Repr

/-- The angle text emitted for one `bone_name` of `BONE_ORDER` at frame
`f`: `arm_obj.pose.bones[bone_name]` via the relative-Euler rule, or
`Angle(0,0,0)` when the lookup raises `KeyError`. -/
def angle_entry {M : Type} (cap : EulerCap M) (arm : ArmObj M) (f : ℤ)
    (bone_name : String) : String :=
  match (arm.pose_bones f).find? (fun pb => pb.name == bone_name) with
  | some pb => vec_to_angle_str (pose_bone_relative_euler_degrees cap arm.matrix_world pb)
  | none => "Angle(0,0,0)"

/-- The 9 angle strings of one keyframe block, in `BONE_ORDER` order. -/
def angle_lines {M : Type} (cap : EulerCap M) (arm : ArmObj M) (f : ℤ) : List String :=
  BONE_ORDER.map (angle_entry cap arm f)

/-- The hold-duration of block `i`: `keyframes[i+1] - keyframes[i]` when a
next keyframe exists, else the fallback `1` for the last key. -/
def frame_length (keyframes : List ℤ) (i : ℕ) : ℤ :=
  if i < keyframes.length - 1 then keyframes.getD (i + 1) 0 - keyframes.getD i 0 else 1

/-- All hold-durations of a keyframe list, in block order. -/
def durations (keyframes : List ℤ) : List ℤ :=
  (List.range keyframes.length).map (frame_length keyframes)

/-- The text lines appended for block `i` of the export loop: an opening
brace, the 9 angle lines each followed by a comma, the hold-duration with
a comma, the constant `true` (sword out), and a closing brace — with a
comma after it except for the last block. -/
def frame_block {M : Type} (cap : EulerCap M) (arm : ArmObj M) (keyframes : List ℤ)
    (i : ℕ) : List String :=
  let f := keyframes.getD i 0
  ["\x7b\n"] ++ (angle_lines cap arm f).map (fun ang => ang ++ ",\n") ++
    [int_str (frame_length keyframes i) ++ ",\n", "true\n",
     if i < keyframes.length - 1 then "\x7d,\n" else "\x7d\n"]

/-- The scene state after the export loop has called `scene.frame_set f`
for every keyframe `f` in order. -/
def scene_after_loop (scene : Scene) (keyframes : List ℤ) : Scene :=
  keyframes.foldl (fun _ f => { frame_current := f }) scene

/-- `export_action_to_slashblade_text`, with the filesystem made explicit:
returns the operation's result (`RuntimeError` text on failure), the final
scene state, and the contents written to the output file (`none` when no
file was written). `write_ok` models whether the directory creation and
file write succeed (`IOError` otherwise); the write is of the fully
assembled line list. -/
def export_action_to_slashblade_text {M : Type} (cap : EulerCap M) (arm : ArmObj M)
    (action : Action) (scene : Scene) (write_ok : Bool) :
    Except String String × Scene × Option String :=
  let keyframes := gather_action_keyframes action
  if keyframes.isEmpty then
    (Except.error "No keyframes found in action!", scene, none)
  else
    let anim_name_lower := py_space_to_underscore (py_lower action.name)
    let anim_name_upper := py_space_to_underscore (py_upper action.name)
    let header := "--@name slashblade_project/anim/" ++ anim_name_lower ++ "\n" ++
      anim_name_upper ++ "=\x7b\n"
    let orig_frame := scene.frame_current
    let body := (List.range keyframes.length).flatMap (frame_block cap arm keyframes)
    let lines := header :: body ++ ["\x7d\n"]
    if write_ok then
      (Except.ok (String.join lines), { frame_current := orig_frame },
        some (String.join lines))
    else
      (Except.error "IOError", scene_after_loop scene keyframes, none)

/-! ## Concrete fixtures used by witnesses and counterexamples -/

/-- A concrete matrix capability over `M := ℤ`: matrices are integers,
multiplication is addition, inversion is negation, the Euler decomposition
reads the integer as the X angle, `degrees` is the identity and
`radians_90` is `90` (so that `degrees` maps it to `90`). -/
def capZ : EulerCap ℤ where
  matmul := (· + ·)
  inverted := Neg.neg
  to_euler_XYZ := fun m => ((m : ℚ), 0, 0)
  degrees := id
  radians_90 := 90

/-- Armature whose skeleton contains only the parentless bone `Torso`,
whose matrix at frame `f` is `f` itself. -/
def armTorso : ArmObj ℤ where
  matrix_world := 0
  pose_bones := fun f => [⟨"Torso", none, f⟩]

/-- The clip of the specification's scenario: named `Slash Combo 1`, one
f-curve with keyframe points at frames 0 and 10. -/
def act0 : Action := ⟨"Slash Combo 1", [⟨[⟨0⟩, ⟨10⟩]⟩]⟩

/-- A clip with no keyframe points at all. -/
def actEmpty : Action := ⟨"Empty", []⟩

/-- A parentless test bone. -/
def pbA : PoseBone ℤ := ⟨"Torso", none, 1⟩

/-- A parented test bone. -/
def pbB : PoseBone ℤ := ⟨"Sword", some 2, 3⟩

/-! ## Helper lemmas -/

theorem mem_insert_unique {a x : ℤ} : ∀ {l : List ℤ}, a ∈ insert_unique x l ↔ a = x ∨ a ∈ l
  | [] => by simp [insert_unique]
  | y :: ys => by
    by_cases h1 : x < y
    · simp [insert_unique, h1]
    · by_cases h2 : x = y
      · simp only [insert_unique, if_neg h1, if_pos h2, List.mem_cons]
        subst h2
        tauto
      · have ih := @mem_insert_unique a x ys
        simp only [insert_unique, if_neg h1, if_neg h2, List.mem_cons, ih]
        tauto

theorem insert_unique_eq_of_lt {x y : ℤ} {ys : List ℤ} (h1 : x < y) :
    insert_unique x (y :: ys) = x :: y :: ys := by
  simp [insert_unique, h1]

theorem sorted_insert_unique {x : ℤ} : ∀ {l : List ℤ},
    List.Sorted (· < ·) l → List.Sorted (· < ·) (insert_unique x l)
  | [], _ => by simp [insert_unique, List.Sorted]
  | y :: ys, hs => by
    have hy : ∀ b ∈ ys, y < b := fun b hb => (List.sorted_cons.mp hs).1 b hb
    have hys : List.Sorted (· < ·) ys := (List.sorted_cons.mp hs).2
    by_cases h1 : x < y
    · rw [insert_unique_eq_of_lt h1]
      refine List.sorted_cons.mpr ⟨?_, hs⟩
      intro b hb
      rcases List.mem_cons.mp hb with rfl | hb
      · exact h1
      · exact h1.trans (hy b hb)
    · by_cases h2 : x = y
      · simpa [insert_unique, h1, h2] using hs
      · have hyx : y < x := by omega
        have ih := @sorted_insert_unique x ys hys
        have hstep : insert_unique x (y :: ys) = y :: insert_unique x ys := by
          simp [insert_unique, h1, h2]
        rw [hstep]
        refine List.sorted_cons.mpr ⟨?_, ih⟩
        intro b hb
        rcases mem_insert_unique.mp hb with rfl | hb
        · exact hyx
        · exact hy b hb

theorem length_insert_unique {x : ℤ} : ∀ {l : List ℤ},
    (insert_unique x l).length ≤ l.length + 1
  | [] => by simp [insert_unique]
  | y :: ys => by
    have ih := @length_insert_unique x ys
    by_cases h1 : x < y
    · simp [insert_unique, h1]
    · by_cases h2 : x = y
      · simp [insert_unique, h1, h2]
      · simp only [insert_unique, if_neg h1, if_neg h2, List.length_cons]
        omega

theorem mem_sorted_unique {a : ℤ} : ∀ {l : List ℤ}, a ∈ sorted_unique l ↔ a ∈ l
  | [] => by simp [sorted_unique]
  | y :: ys => by
    have ih := @mem_sorted_unique a ys
    simp only [sorted_unique, List.foldr_cons] at *
    rw [mem_insert_unique, ih]
    simp

theorem sorted_sorted_unique : ∀ (l : List ℤ), List.Sorted (· < ·) (sorted_unique l)
  | [] => by simp [sorted_unique]
  | y :: ys => by
    have ih := sorted_sorted_unique ys
    simpa [sorted_unique] using @sorted_insert_unique y (sorted_unique ys) ih

theorem length_sorted_unique : ∀ (l : List ℤ), (sorted_unique l).length ≤ l.length
  | [] => by simp [sorted_unique]
  | y :: ys => by
    have ih := length_sorted_unique ys
    have h := @length_insert_unique y (sorted_unique ys)
    simp only [sorted_unique, List.foldr_cons] at *
    simp only [List.length_cons]
    omega

theorem sorted_unique_ne_nil {l : List ℤ} (h : l ≠ []) : sorted_unique l ≠ [] := by
  obtain ⟨a, ha⟩ := List.exists_mem_of_ne_nil l h
  intro hc
  have := mem_sorted_unique.mpr ha
  rw [hc] at this
  exact List.not_mem_nil a this

theorem length_all_rounds (action : Action) : (all_rounds action).length = total_points action := by
  simp only [all_rounds, total_points]
  induction action.fcurves with
  | nil => rfl
  | cons f fs ih => simp [List.flatMap_cons, ih]

theorem digitChar_isDigit {m : ℕ} (h : m < 10) : (Nat.digitChar m).isDigit = true := by
  interval_cases m <;> decide

theorem natCharsCore_all_digits :
    ∀ (fuel n : ℕ), ∀ c ∈ natCharsCore fuel n, c.isDigit = true
  | 0, n => by simp [natCharsCore]
  | fuel + 1, n => by
    intro c hc
    by_cases h : n < 10
    · simp only [natCharsCore, if_pos h, List.mem_singleton] at hc
      subst hc
      exact digitChar_isDigit h
    · simp only [natCharsCore, if_neg h, List.mem_append, List.mem_singleton] at hc
      rcases hc with hc | hc
      · exact natCharsCore_all_digits fuel (n / 10) c hc
      · subst hc
        exact digitChar_isDigit (Nat.mod_lt _ (by omega))

theorem natChars_all_digits (n : ℕ) : ∀ c ∈ natChars n, c.isDigit = true :=
  natCharsCore_all_digits (n + 1) n

theorem natChars_ne_nil (n : ℕ) : natChars n ≠ [] := by
  unfold natChars natCharsCore
  split <;> simp

theorem pad6_chars_all_digits (n : ℕ) : ∀ c ∈ pad6_chars n, c.isDigit = true := by
  intro c hc
  simp only [pad6_chars, List.mem_cons, List.mem_singleton, List.not_mem_nil, or_false] at hc
  rcases hc with rfl | rfl | rfl | rfl | rfl | rfl <;>
    exact digitChar_isDigit (Nat.mod_lt _ (by omega))

theorem getD_eq_getElem {α : Type} (l : List α) (d : α) {i : ℕ} (h : i < l.length) :
    l.getD i d = l[i] := by
  simp [List.getD_eq_getElem?_getD, List.getElem?_eq_getElem h]

theorem durations_getD (ks : List ℤ) (i : ℕ) (h : i < ks.length) :
    (durations ks).getD i 0 = frame_length ks i := by
  have hlen : i < (durations ks).length := by simpa [durations] using h
  rw [getD_eq_getElem _ _ hlen]
  simp [durations]

/-- `find?` over a list with no duplicate names returns the unique match. -/
theorem find?_eq_some_of_unique {M : Type} {p : PoseBone M → Bool} {l : List (PoseBone M)}
    {b : PoseBone M} (hu : ∀ a ∈ l, p a = true → a = b) (hb : b ∈ l) (hpb : p b = true) :
    l.find? p = some b := by
  induction l with
  | nil => cases hb
  | cons a as ih =>
    by_cases hpa : p a = true
    · have hab : a = b := hu a (List.mem_cons_self a as) hpa
      subst hab
      simp [List.find?_cons_of_pos _ hpa]
    · have hb' : b ∈ as := by
        rcases List.mem_cons.mp hb with rfl | h
        · exact absurd hpb hpa
        · exact h
      have hu' : ∀ a' ∈ as, p a' = true → a' = b :=
        fun a' ha' => hu a' (List.mem_cons_of_mem _ ha')
      rw [List.find?_cons_of_neg _ (by simpa using hpa)]
      exact ih hu' hb'

/-- Looking a bone up by name is independent of the declaration order of a
duplicate-free skeleton. -/
theorem find?_name_perm {M : Type} {l1 l2 : List (PoseBone M)} (hp : l1.Perm l2)
    (hnd : (l1.map PoseBone.name).Nodup) (n : String) :
    l1.find? (fun pb => pb.name == n) = l2.find? (fun pb => pb.name == n) := by
  have hnd2 : (l2.map PoseBone.name).Nodup := ((hp.map PoseBone.name).nodup_iff).mp hnd
  cases hfind : l1.find? (fun pb => pb.name == n) with
  | none =>
    rw [List.find?_eq_none] at hfind
    symm
    rw [List.find?_eq_none]
    intro x hx
    exact hfind x (hp.mem_iff.mpr hx)
  | some b =>
    have hpb0 := List.find?_some hfind
    have hpb : (b.name == n) = true := by simpa using hpb0
    have hmem : b ∈ l1 := List.mem_of_find?_eq_some hfind
    have hmem2 : b ∈ l2 := hp.mem_iff.mp hmem
    have hu2 : ∀ a ∈ l2, (a.name == n) = true → a = b := by
      intro a ha hpa
      have hname : a.name = b.name := by
        have h1 : a.name = n := by simpa using hpa
        have h2 : b.name = n := by simpa using hpb
        rw [h1, h2]
      exact List.inj_on_of_nodup_map hnd2 ha hmem2 hname
    exact (find?_eq_some_of_unique hu2 hmem2 hpb).symm

/-! ## Claim theorems -/

/-- C1: for every bone evaluated at a keyframe, a parented bone's emitted
AngleTriple is the XYZ-Euler decomposition, in degrees, of (parent
transform inverse composed with the bone's own transform), with no offset;
a parentless bone's emitted AngleTriple is the decomposition in degrees of
(armature world transform composed with the bone's pose transform) with
exactly 90 degrees subtracted from the X component only. The two
hypotheses are the relevant facts about the host's `math.degrees` and
`math.radians(90.0)`: the radians-to-degrees conversion distributes over
subtraction and maps ninety degrees' worth of radians to `90`. -/
theorem claim_C1_relative_euler {M : Type} (cap : EulerCap M) (w : M) (pb : PoseBone M)
    (hdeg : ∀ a b : ℚ, cap.degrees (a - b) = cap.degrees a - cap.degrees b)
    (h90 : cap.degrees cap.radians_90 = 90) :
    (∀ pm, pb.parent = some pm →
      pose_bone_relative_euler_degrees cap w pb =
        (cap.degrees (cap.to_euler_XYZ (cap.matmul (cap.inverted pm) pb.matrix)).1,
         cap.degrees (cap.to_euler_XYZ (cap.matmul (cap.inverted pm) pb.matrix)).2.1,
         cap.degrees (cap.to_euler_XYZ (cap.matmul (cap.inverted pm) pb.matrix)).2.2)) ∧
    (pb.parent = none →
      pose_bone_relative_euler_degrees cap w pb =
        (cap.degrees (cap.to_euler_XYZ (cap.matmul w pb.matrix)).1 - 90,
         cap.degrees (cap.to_euler_XYZ (cap.matmul w pb.matrix)).2.1,
         cap.degrees (cap.to_euler_XYZ (cap.matmul w pb.matrix)).2.2)) := by
  constructor
  · intro pm hpm
    simp [pose_bone_relative_euler_degrees, hpm]
  · intro hnone
    simp [pose_bone_relative_euler_degrees, hnone, hdeg, h90]

/-- Witness for C1: a concrete parentless bone under the concrete
capability `capZ`, whose `degrees` is the identity. -/
theorem claim_C1_relative_euler_witness :
    (PoseBone.mk "Torso" none (7 : ℤ)).parent = none ∧
    pose_bone_relative_euler_degrees capZ 0 (PoseBone.mk "Torso" none 7) =
      (capZ.degrees (capZ.to_euler_XYZ (capZ.matmul 0 (PoseBone.mk "Torso" none (7 : ℤ)).matrix)).1 - 90,
       capZ.degrees (capZ.to_euler_XYZ (capZ.matmul 0 (PoseBone.mk "Torso" none (7 : ℤ)).matrix)).2.1,
       capZ.degrees (capZ.to_euler_XYZ (capZ.matmul 0 (PoseBone.mk "Torso" none (7 : ℤ)).matrix)).2.2) :=
  ⟨rfl, (claim_C1_relative_euler capZ 0 (PoseBone.mk "Torso" none 7)
    (fun _ _ => rfl) rfl).2 rfl⟩

/-- C4: `gather_action_keyframes` returns exactly the ascending sorted,
duplicate-free sequence of `round(kp.co.x)` over every keyframe point of
every channel; for a clip with at least one keyframe point the result is
non-empty, and its length is at most the total number of keyframe
points. -/
theorem claim_C4_extract_keyframes (action : Action) :
    List.Sorted (· < ·) (gather_action_keyframes action) ∧
    (gather_action_keyframes action).Nodup ∧
    (∀ z : ℤ, z ∈ gather_action_keyframes action ↔ z ∈ all_rounds action) ∧
    (0 < total_points action → gather_action_keyframes action ≠ []) ∧
    (gather_action_keyframes action).length ≤ total_points action := by
  refine ⟨sorted_sorted_unique _, ?_, fun z => mem_sorted_unique, ?_, ?_⟩
  · exact (sorted_sorted_unique _).nodup
  · intro hpos
    apply sorted_unique_ne_nil
    intro hnil
    have := length_all_rounds action
    rw [hnil] at this
    simp at this
    omega
  · calc (gather_action_keyframes action).length
        ≤ (all_rounds action).length := length_sorted_unique _
      _ = total_points action := length_all_rounds action

/-- Witness for C4 at the scenario clip (two keyframe points). -/
theorem claim_C4_extract_keyframes_witness :
    0 < total_points act0 ∧ gather_action_keyframes act0 ≠ [] :=
  ⟨by decide, (claim_C4_extract_keyframes act0).2.2.2.1 (by decide)⟩

/-- C5: the hold-duration of block `i` is `frames[i+1] - frames[i]` when a
next frame exists and the constant `1` for the final block; for the
FrameSet `[1, 5, 12]` the durations are `4, 7, 1`. -/
theorem claim_C5_hold_durations (keyframes : List ℤ) (i : ℕ) :
    (i + 1 < keyframes.length →
      (durations keyframes).getD i 0 = keyframes.getD (i + 1) 0 - keyframes.getD i 0) ∧
    (i + 1 = keyframes.length →
      (durations keyframes).getD i 0 = 1) ∧
    durations [1, 5, 12] = [4, 7, 1] := by
  refine ⟨?_, ?_, by decide⟩
  · intro h
    rw [durations_getD _ _ (by omega), frame_length, if_pos (by omega)]
  · intro h
    rw [durations_getD _ _ (by omega), frame_length, if_neg (by omega)]

/-- Witness for C5 on the FrameSet `[1, 5, 12]` at index 0. -/
theorem claim_C5_hold_durations_witness :
    (0 + 1 < ([1, 5, 12] : List ℤ).length) ∧
    (durations [1, 5, 12]).getD 0 0 =
      ([1, 5, 12] : List ℤ).getD (0 + 1) 0 - ([1, 5, 12] : List ℤ).getD 0 0 :=
  ⟨by decide, (claim_C5_hold_durations [1, 5, 12] 0).1 (by decide)⟩

/-- C10: every hold-duration of a serialized clip is at least 1: the
extracted keyframe sequence is strictly increasing, so consecutive
differences are positive, and the final block's duration is the
constant 1. -/
theorem claim_C10_durations_ge_one (action : Action) (d : ℤ)
    (hd : d ∈ durations (gather_action_keyframes action)) : 1 ≤ d := by
  obtain ⟨i, hi, hfd⟩ := List.mem_map.mp hd
  rw [List.mem_range] at hi
  subst hfd
  by_cases h : i < (gather_action_keyframes action).length - 1
  · rw [frame_length, if_pos h]
    have hs : List.Pairwise (· < ·) (gather_action_keyframes action) :=
      sorted_sorted_unique (all_rounds action)
    have hi1 : i + 1 < (gather_action_keyframes action).length := by omega
    have hlt : (gather_action_keyframes action)[i] < (gather_action_keyframes action)[i + 1] :=
      List.pairwise_iff_getElem.mp hs i (i + 1) (by omega) hi1 (by omega)
    rw [getD_eq_getElem _ _ hi1, getD_eq_getElem _ _ (by omega)]
    omega
  · rw [frame_length, if_neg h]

/-- Witness for C10: the first duration of the scenario clip. -/
theorem claim_C10_durations_ge_one_witness :
    (10 : ℤ) ∈ durations (gather_action_keyframes act0) ∧ (1 : ℤ) ≤ 10 :=
  ⟨by with_unfolding_all decide,
    claim_C10_durations_ge_one act0 10 (by with_unfolding_all decide)⟩

/-- C2, counterexample to the claim as stated: with a skeleton containing
only `Torso`, the Sword slot of a keyframe block is rendered as the text
`Angle(0,0,0)`, which is not `Angle(0.000000,0.000000,0.000000)`. -/
theorem claim_C2_counterexample :
    (angle_lines capZ armTorso 0).getD 8 "" = "Angle(0,0,0)" ∧
    "Angle(0,0,0)" ≠ "Angle(0.000000,0.000000,0.000000)" := by
  with_unfolding_all decide

/-- C2 as amended: every angle field of a bone that is present in the
skeleton is rendered as a signed fixed-point decimal with exactly 6 digits
after the decimal point, but for a bone name absent from the skeleton the
emitted entry is the text `Angle(0,0,0)` (not the 6-digit zero form). -/
theorem claim_C2_angle_format :
    (∀ q : ℚ, ∃ (sign intpart : String) (ds : List Char),
      format_fixed6 q = sign ++ intpart ++ "." ++ String.mk ds ∧
      (sign = "" ∨ sign = "-") ∧
      intpart.toList ≠ [] ∧ (∀ c ∈ intpart.toList, c.isDigit = true) ∧
      ds.length = 6 ∧ (∀ c ∈ ds, c.isDigit = true)) ∧
    (∀ (M : Type) (cap : EulerCap M) (arm : ArmObj M) (f : ℤ) (bn : String),
      (arm.pose_bones f).find? (fun pb => pb.name == bn) = none →
      angle_entry cap arm f bn = "Angle(0,0,0)") := by
  constructor
  · intro q
    refine ⟨if q < 0 then "-" else "",
      String.mk (natChars ((py_round (|q| * 1000000)).toNat / 1000000)),
      pad6_chars ((py_round (|q| * 1000000)).toNat % 1000000),
      rfl, ?_, ?_, ?_, rfl, pad6_chars_all_digits _⟩
    · by_cases h : q < 0 <;> simp [h]
    · exact natChars_ne_nil _
    · exact natChars_all_digits _
  · intro M cap arm f bn hnone
    simp [angle_entry, hnone]

/-- Witness for C2 (amended): the Sword bone is absent from `armTorso`. -/
theorem claim_C2_angle_format_witness :
    (armTorso.pose_bones 0).find? (fun pb => pb.name == "Sword") = none ∧
    angle_entry capZ armTorso 0 "Sword" = "Angle(0,0,0)" :=
  ⟨by decide, claim_C2_angle_format.2 ℤ capZ armTorso 0 "Sword" (by decide)⟩

/-- C3 (code bug): a successful export restores the scene's current-frame
cursor (here 5), but an export whose file write fails leaves the cursor at
the last seeked keyframe (here 10): `scene.frame_set(orig_frame)` runs
only after the write, with no try/finally. -/
theorem claim_C3_cursor_restore :
    (export_action_to_slashblade_text capZ armTorso act0 ⟨5⟩ true).2.1 = ⟨5⟩ ∧
    (export_action_to_slashblade_text capZ armTorso act0 ⟨5⟩ false).2.1 = ⟨10⟩ ∧
    (Scene.mk 5) ≠ (Scene.mk 10) := by
  with_unfolding_all decide

/-- C6: a clip whose derived FrameSet is empty fails with the
`No keyframes found in action!` error before any scene seek or file
write, and in every error case no file is written (the document text is
fully assembled in memory before the single write). -/
theorem claim_C6_no_partial_file {M : Type} (cap : EulerCap M) (arm : ArmObj M)
    (action : Action) (scene : Scene) (write_ok : Bool) :
    (gather_action_keyframes action = [] →
      export_action_to_slashblade_text cap arm action scene write_ok =
        (Except.error "No keyframes found in action!", scene, none)) ∧
    (∀ e : String,
      (export_action_to_slashblade_text cap arm action scene write_ok).1 = Except.error e →
      (export_action_to_slashblade_text cap arm action scene write_ok).2.2 = none) := by
  constructor
  · intro h
    simp [export_action_to_slashblade_text, h]
  · intro e he
    by_cases h : (gather_action_keyframes action).isEmpty
    · simp [export_action_to_slashblade_text, h]
    · by_cases hw : write_ok
      · exfalso
        revert he
        simp [export_action_to_slashblade_text, h, hw]
      · simp [export_action_to_slashblade_text, h, hw]

/-- Witness for C6: the empty clip aborts with the no-keyframes error and
no file contents. -/
theorem claim_C6_no_partial_file_witness :
    gather_action_keyframes actEmpty = [] ∧
    export_action_to_slashblade_text capZ armTorso actEmpty ⟨5⟩ true =
      (Except.error "No keyframes found in action!", ⟨5⟩, none) :=
  ⟨by decide, (claim_C6_no_partial_file capZ armTorso actEmpty ⟨5⟩ true).1 (by decide)⟩

/-- C7: the Nth angle entry of every keyframe block corresponds to the Nth
name of `BONE_ORDER`, and the emitted entries are unchanged under any
reordering (permutation) of a duplicate-free skeleton's bone
declarations. -/
theorem claim_C7_bone_order {M : Type} (cap : EulerCap M) (w : M)
    (bones1 bones2 : List (PoseBone M)) (f : ℤ)
    (hp : bones1.Perm bones2) (hnd : (bones1.map PoseBone.name).Nodup) :
    angle_lines cap ⟨w, fun _ => bones1⟩ f = angle_lines cap ⟨w, fun _ => bones2⟩ f ∧
    ∀ i, i < BONE_ORDER.length →
      (angle_lines cap ⟨w, fun _ => bones1⟩ f).getD i "" =
        angle_entry cap ⟨w, fun _ => bones1⟩ f (BONE_ORDER.getD i "") := by
  constructor
  · unfold angle_lines
    apply List.map_congr_left
    intro bn _
    unfold angle_entry
    rw [show (ArmObj.mk w fun _ => bones1).pose_bones f = bones1 from rfl,
        show (ArmObj.mk w fun _ => bones2).pose_bones f = bones2 from rfl,
        find?_name_perm hp hnd bn]
  · intro i hi
    unfold angle_lines
    have hlen : i < (BONE_ORDER.map (angle_entry cap ⟨w, fun _ => bones1⟩ f)).length := by
      simpa using hi
    rw [getD_eq_getElem _ _ hlen, getD_eq_getElem _ _ hi, List.getElem_map]

/-- Witness for C7: a two-bone skeleton and its reversal give identical
angle lines. -/
theorem claim_C7_bone_order_witness :
    ([pbA, pbB].Perm [pbB, pbA] ∧ (([pbA, pbB].map PoseBone.name).Nodup)) ∧
    angle_lines capZ ⟨0, fun _ => [pbA, pbB]⟩ 0 = angle_lines capZ ⟨0, fun _ => [pbB, pbA]⟩ 0 :=
  ⟨⟨List.Perm.swap pbB pbA [], by decide⟩,
    (claim_C7_bone_order capZ 0 [pbA, pbB] [pbB, pbA] 0
      (List.Perm.swap pbB pbA []) (by decide)).1⟩

set_option maxRecDepth 100000 in
/-- C8: every keyframe block carries exactly 9 angle entries (one per
`BONE_ORDER` name); and the scenario clip `Slash Combo 1` with keyframes
at 0 and 10 over a Torso-only skeleton yields precisely the document with
header `--@name slashblade_project/anim/slash_combo_1`, table name
`SLASH_COMBO_1`, two blocks of 9 angle entries, hold-durations 10 then 1,
a trailing `true` in each block, and a comma after every block but the
last. -/
theorem claim_C8_document_shape :
    (∀ (M : Type) (cap : EulerCap M) (arm : ArmObj M) (f : ℤ),
      (angle_lines cap arm f).length = 9) ∧
    (export_action_to_slashblade_text capZ armTorso act0 ⟨5⟩ true).2.2 =
      some ("--@name slashblade_project/anim/slash_combo_1\nSLASH_COMBO_1=\x7b\n" ++
        "\x7b\nAngle(-90.000000,0.000000,0.000000),\nAngle(0,0,0),\nAngle(0,0,0),\n" ++
        "Angle(0,0,0),\nAngle(0,0,0),\nAngle(0,0,0),\nAngle(0,0,0),\nAngle(0,0,0),\n" ++
        "Angle(0,0,0),\n10,\ntrue\n\x7d,\n" ++
        "\x7b\nAngle(-80.000000,0.000000,0.000000),\nAngle(0,0,0),\nAngle(0,0,0),\n" ++
        "Angle(0,0,0),\nAngle(0,0,0),\nAngle(0,0,0),\nAngle(0,0,0),\nAngle(0,0,0),\n" ++
        "Angle(0,0,0),\n1,\ntrue\n\x7d\n\x7d\n") := by
  constructor
  · intro M cap arm f
    simp [angle_lines, BONE_ORDER]
  · with_unfolding_all decide

/-- C9: serialization is deterministic and independent of the incoming
scene cursor: two runs on the same clip, capability and skeleton state
produce the same result and byte-identical output text, whatever the
scene's current frame was when each run began. -/
theorem claim_C9_deterministic {M : Type} (cap : EulerCap M) (arm : ArmObj M)
    (action : Action) (s1 s2 : Scene) (write_ok : Bool) :
    (export_action_to_slashblade_text cap arm action s1 write_ok).1 =
      (export_action_to_slashblade_text cap arm action s2 write_ok).1 ∧
    (export_action_to_slashblade_text cap arm action s1 write_ok).2.2 =
      (export_action_to_slashblade_text cap arm action s2 write_ok).2.2 := by
  unfold export_action_to_slashblade_text
  by_cases h : (gather_action_keyframes action).isEmpty <;>
    by_cases hw : write_ok <;> simp [h, hw]

end Slashblade
